import Mathlib

/-!
Verification development for the `pua_transcript_checker` repository.

The development shallowly embeds the two Python modules the claims are about:

* `telegram_ring.py` — the call-signaling core: `get_g_a_hash` (Diffie-Hellman
  commitment negotiation) and `ring_phone` (the call session controller).
  External RPC effects (Telethon calls, `asyncio.sleep`) are modelled by an
  `Oracle` giving each awaited step's outcome; an outcome is either a value or
  a raised error, and a raised error carries a flag telling whether it is a
  `BaseException`-style error (e.g. `asyncio.CancelledError`), which Python's
  `except Exception` does not catch.  Executions produce a trace of attempted
  RPC invocations, so ordering and counting claims can be stated.

* `pua_transcript_checker.py` — the HTTP retry wrapper `retry_request` and its
  callers `get_login_tokens`, `login`, `get_transcripts`.  The HTTP session is
  modelled by a function from attempt index to outcome (an exception or a
  response); responses keep only the fields the code inspects.

SHA-256 is embedded in full (FIPS 180-4) since the commitment hash claims are
about its output.
-/

namespace PuaChecker

/-- Big-endian interpretation of a byte string, as in Python
`int.from_bytes(b, "big")`. -/
def fromBytesBE (bs : List Nat) : Nat :=
  bs.foldl (fun acc b => acc * 256 + b) 0

/-- Big-endian encoding of `n` into exactly `len` bytes (low bytes of `n` if it
does not fit). -/
def toBytesBEfix : Nat → Nat → List Nat
  | 0, _ => []
  | len + 1, n => toBytesBEfix len (n / 256) ++ [n % 256]

/-- Python `n.to_bytes(len, "big")`: raises `OverflowError` when `n` does not
fit in `len` bytes, modelled by `none`. -/
def toBytesBE (len n : Nat) : Option (List Nat) :=
  if n < 256 ^ len then some (toBytesBEfix len n) else none

/-- A byte string is valid when every entry is below 256. -/
def ValidBytes (bs : List Nat) : Prop :=
  ∀ b ∈ bs, b < 256

/-! SHA-256 (FIPS 180-4) over byte strings, all words reduced modulo `2 ^ 32`. -/

/-- Rotate a word right by `n` bit positions, truncated to 32 bits. -/
def rotr32 (n x : Nat) : Nat :=
  (x >>> n) ||| ((x <<< (32 - n)) % 2 ^ 32)

/-- Message-schedule mixing function `σ0`. -/
def sigmaLow0 (x : Nat) : Nat :=
  rotr32 7 x ^^^ rotr32 18 x ^^^ (x >>> 3)

/-- Message-schedule mixing function `σ1`. -/
def sigmaLow1 (x : Nat) : Nat :=
  rotr32 17 x ^^^ rotr32 19 x ^^^ (x >>> 10)

/-- Compression mixing function `Σ0`. -/
def sigmaHigh0 (x : Nat) : Nat :=
  rotr32 2 x ^^^ rotr32 13 x ^^^ rotr32 22 x

/-- Compression mixing function `Σ1`. -/
def sigmaHigh1 (x : Nat) : Nat :=
  rotr32 6 x ^^^ rotr32 11 x ^^^ rotr32 25 x

/-- Round constants `K[0..63]` of SHA-256, written in decimal. -/
def K64 : List Nat :=
  [1116352408, 1899447441, 3049323471, 3921009573, 961987163,
   1508970993, 2453635748, 2870763221, 3624381080, 310598401,
   607225278, 1426881987, 1925078388, 2162078206, 2614888103,
   3248222580, 3835390401, 4022224774, 264347078, 604807628,
   770255983, 1249150122, 1555081692, 1996064986, 2554220882,
   2821834349, 2952996808, 3210313671, 3336571891, 3584528711,
   113926993, 338241895, 666307205, 773529912, 1294757372,
   1396182291, 1695183700, 1986661051, 2177026350, 2456956037,
   2730485921, 2820302411, 3259730800, 3345764771, 3516065817,
   3600352804, 4094571909, 275423344, 430227734, 506948616,
   659060556, 883997877, 958139571, 1322822218, 1537002063,
   1747873779, 1955562222, 2024104815, 2227730452, 2361852424,
   2428436474, 2756734187, 3204031479, 3329325298]

/-- Working state of the SHA-256 compression function: eight 32-bit words. -/
structure Hash8 where
  a : Nat
  b : Nat
  c : Nat
  d : Nat
  e : Nat
  f : Nat
  g : Nat
  h : Nat
deriving DecidableEq

/-- Starting hash state of SHA-256, in decimal. -/
def initH : Hash8 :=
  ⟨1779033703, 3144134277, 1013904242, 2773480762,
   1359893119, 2600822924, 528734635, 1541459225⟩

/-- Pack bytes into big-endian 32-bit words, four bytes per word. -/
def bytesToWords : List Nat → List Nat
  | b0 :: b1 :: b2 :: b3 :: rest =>
      (((b0 * 256 + b1) * 256 + b2) * 256 + b3) :: bytesToWords rest
  | _ => []

/-- Extend the 16 block words to the 64-entry message schedule. -/
def schedule (ws : List Nat) : List Nat :=
  (List.range 48).foldl
    (fun acc _ =>
      let n := acc.length
      acc ++ [(sigmaLow1 (acc.getD (n - 2) 0) + acc.getD (n - 7) 0 +
               sigmaLow0 (acc.getD (n - 15) 0) + acc.getD (n - 16) 0) % 2 ^ 32])
    ws

/-- One SHA-256 round, consuming a round constant paired with a schedule word. -/
def roundStep (st : Hash8) (kw : Nat × Nat) : Hash8 :=
  let s1 := sigmaHigh1 st.e
  let ch := (st.e &&& st.f) ^^^ ((st.e ^^^ (2 ^ 32 - 1)) &&& st.g)
  let temp1 := (st.h + s1 + ch + kw.1 + kw.2) % 2 ^ 32
  let s0 := sigmaHigh0 st.a
  let maj := (st.a &&& st.b) ^^^ (st.a &&& st.c) ^^^ (st.b &&& st.c)
  let temp2 := (s0 + maj) % 2 ^ 32
  ⟨(temp1 + temp2) % 2 ^ 32, st.a, st.b, st.c,
   (st.d + temp1) % 2 ^ 32, st.e, st.f, st.g⟩

/-- Process one 64-byte block. -/
def compress (st : Hash8) (block : List Nat) : Hash8 :=
  let ws := schedule (bytesToWords block)
  let t := (K64.zip ws).foldl roundStep st
  ⟨(st.a + t.a) % 2 ^ 32, (st.b + t.b) % 2 ^ 32, (st.c + t.c) % 2 ^ 32,
   (st.d + t.d) % 2 ^ 32, (st.e + t.e) % 2 ^ 32, (st.f + t.f) % 2 ^ 32,
   (st.g + t.g) % 2 ^ 32, (st.h + t.h) % 2 ^ 32⟩

/-- Split a byte string into 64-byte chunks. -/
def chunks64 : List Nat → List (List Nat)
  | [] => []
  | x :: xs => ((x :: xs).take 64) :: chunks64 ((x :: xs).drop 64)
termination_by l => l.length
decreasing_by
  simp [List.length_drop]
  omega

/-- SHA-256 padding: append `0x80`, zero bytes to 56 mod 64, then the bit
length as eight big-endian bytes. -/
def padMessage (msg : List Nat) : List Nat :=
  let L := msg.length
  let zeros := List.replicate ((119 - L % 64) % 64) 0
  msg ++ [0x80] ++ zeros ++ toBytesBEfix 8 (8 * L)

/-- SHA-256 digest of a byte string: 32 bytes. -/
def sha256 (msg : List Nat) : List Nat :=
  let final := (chunks64 (padMessage msg)).foldl compress initH
  toBytesBEfix 4 final.a ++ toBytesBEfix 4 final.b ++ toBytesBEfix 4 final.c ++
  toBytesBEfix 4 final.d ++ toBytesBEfix 4 final.e ++ toBytesBEfix 4 final.f ++
  toBytesBEfix 4 final.g ++ toBytesBEfix 4 final.h

/-! Model of `telegram_ring.py`.

Every awaited external step either returns a value or raises.  A raised error
carries `cancel = true` when it is a `BaseException`-style error (such as
`asyncio.CancelledError`, or `KeyboardInterrupt`) that `except Exception`
does not catch, and `cancel = false` for an ordinary `Exception`. -/

/-- Outcome of one awaited external step. -/
inductive StepResult (α : Type) where
  | ok (a : α)
  | err (cancel : Bool)
deriving DecidableEq

/-- Response to `GetDhConfigRequest`: either a DH config carrying the modulus
byte string `p` and the generator `g`, or `DhConfigNotModified`. -/
inductive DhResp where
  | config (p : List Nat) (g : Nat)
  | notModified
deriving DecidableEq

/-- The call handle returned by `RequestCallRequest`: `phone_call.id` and
`phone_call.access_hash`. -/
structure PhoneCallHandle where
  id : Nat
  access_hash : Nat
deriving DecidableEq

/-- One attempted external invocation during a ring attempt, recorded in
source order with the arguments the code passes. -/
inductive Event where
  | start
  | getMe
  | getEntity (target : String)
  | getDhConfig
  | requestCall (userId : Nat) (gAHash : List Nat)
  | sleep (duration : Nat)
  | discardCall (callId : Nat) (accessHash : Nat) (duration : Nat)
      (reasonHangup : Bool) (connectionId : Nat)
  | disconnect
deriving DecidableEq

/-- Environment of one `ring_phone` execution: the outcome of each awaited
step and the value of `secrets.token_bytes(256)` read as a big-endian
integer. -/
structure Oracle where
  startRes : StepResult Unit
  getMeRes : StepResult Unit
  getEntityRes : StepResult Nat
  dhConfig1 : StepResult DhResp
  dhConfig2 : StepResult DhResp
  randomBytes : Nat
  requestCallRes : StepResult PhoneCallHandle
  sleepRes : StepResult Unit
  discardRes : StepResult Unit
deriving DecidableEq

/-- What `ring_phone` does at its boundary: return a boolean, or let a
`BaseException`-style error propagate past `except Exception`. -/
inductive RingOutcome where
  | returned (b : Bool)
  | raised
deriving DecidableEq

/-- Ephemeral secret: `int.from_bytes(secrets.token_bytes(256), "big") % (p - 1) + 1`. -/
def secretA (p r : Nat) : Nat :=
  r % (p - 1) + 1

/-- Public value: `pow(g, a, p)`. -/
def gA (p g r : Nat) : Nat :=
  g ^ secretA p r % p

/-- Tail of `get_g_a_hash` after the config fetch: read `p_bytes` and `g` off
the config and hash the encoded public value.  Errors carry the cancellation
flag and the `getDhConfig` events already emitted; reading `.p` off a
`DhConfigNotModified` raises `AttributeError`, `p ≤ 1` raises in `% (p - 1)`
or `pow(..., p)`, and an oversized value raises `OverflowError` in
`to_bytes` — all ordinary exceptions, hence flag `false`. -/
def gaFinish (r : Nat) (cfg : DhResp) (evs : List Event) :
    Except (Bool × List Event) (List Nat × List Event) :=
  match cfg with
  | .notModified => .error (false, evs)
  | .config p_bytes g =>
    let p := fromBytesBE p_bytes
    if p ≤ 1 then .error (false, evs)
    else
      match toBytesBE p_bytes.length (gA p g r) with
      | none => .error (false, evs)
      | some g_a_bytes => .ok (sha256 g_a_bytes, evs)

/-- Embedding of `get_g_a_hash` proper: the config fetch with its single
retry on a not-modified response, followed by `gaFinish`. -/
def get_g_a_hash (o : Oracle) : Except (Bool × List Event) (List Nat × List Event) :=
  match o.dhConfig1 with
  | .err c => .error (c, [.getDhConfig])
  | .ok .notModified =>
    match o.dhConfig2 with
    | .err c => .error (c, [.getDhConfig, .getDhConfig])
    | .ok cfg => gaFinish o.randomBytes cfg [.getDhConfig, .getDhConfig]
  | .ok (.config p g) => gaFinish o.randomBytes (.config p g) [.getDhConfig]

/-- Boundary behavior of `except Exception` for an error raised in the `try`
body: an ordinary exception yields `return False`, a `BaseException`-style
error propagates. -/
def onErr (cancel : Bool) : RingOutcome :=
  if cancel then .raised else .returned false

/-- The `try`/`except` body of `ring_phone`: run the steps in source order,
recording each attempted invocation, up to `return True`. -/
def ringBody (o : Oracle) (target : String) (duration : Nat) :
    RingOutcome × List Event :=
  match o.startRes with
  | .err c => (onErr c, [.start])
  | .ok _ =>
  match o.getMeRes with
  | .err c => (onErr c, [.start, .getMe])
  | .ok _ =>
  match o.getEntityRes with
  | .err c => (onErr c, [.start, .getMe, .getEntity target])
  | .ok user =>
  match get_g_a_hash o with
  | .error (c, evs) => (onErr c, [.start, .getMe, .getEntity target] ++ evs)
  | .ok (g_a_hash, evs) =>
  let evs1 := [.start, .getMe, .getEntity target] ++ evs ++
    [.requestCall user g_a_hash]
  match o.requestCallRes with
  | .err c => (onErr c, evs1)
  | .ok phone_call =>
  let evs2 := evs1 ++ [.sleep duration]
  match o.sleepRes with
  | .err c => (onErr c, evs2)
  | .ok _ =>
  let evs3 := evs2 ++ [.discardCall phone_call.id phone_call.access_hash 0 true 0]
  match o.discardRes with
  | .err c => (onErr c, evs3)
  | .ok _ => (.returned true, evs3)

/-- Embedding of `ring_phone`: the `try` body followed by the `finally`
clause, which disconnects the client on every path. -/
def ring_phone (o : Oracle) (target : String) (duration : Nat) :
    RingOutcome × List Event :=
  let r := ringBody o target duration
  (r.1, r.2 ++ [.disconnect])

/-- Recognizer for `requestCall` events. -/
def isRequestCall : Event → Bool
  | .requestCall _ _ => true
  | _ => false

/-- Recognizer for `getDhConfig` events. -/
def isGetDhConfig : Event → Bool
  | .getDhConfig => true
  | _ => false

/-- Recognizer for `getEntity` events. -/
def isGetEntity : Event → Bool
  | .getEntity _ => true
  | _ => false

/-- Recognizer for `discardCall` events. -/
def isDiscardCall : Event → Bool
  | .discardCall _ _ _ _ _ => true
  | _ => false

/-! Model of `pua_transcript_checker.py`: the retry wrapper and the callers
that consume its result.  An HTTP response keeps only the fields the code
inspects: the status code, whether the final URL contains `Login.aspx`,
whether the body contains the bad-credentials marker, and an opaque body
identifier.  `requests.Response.__bool__` is `status_code < 400`, which the
callers use through `if not response`. -/

/-- An HTTP response as the checker sees it. -/
structure Response where
  status_code : Nat
  urlHasLogin : Bool
  textHasBadCred : Bool
  body : Nat
deriving DecidableEq

/-- Outcome of one attempt inside `retry_request`: the request raises, or
returns a response. -/
inductive AttemptOutcome where
  | raise
  | resp (r : Response)
deriving DecidableEq

/-- The `response.status_code in [503, 502, 500]` test of the retry loop. -/
def isTransientStatus (s : Nat) : Bool :=
  s == 503 || s == 502 || s == 500

/-- An attempt outcome the retry loop treats as transient: an exception, or a
response with status 503, 502 or 500. -/
def isTransient : AttemptOutcome → Bool
  | .raise => true
  | .resp r => isTransientStatus r.status_code

/-- The `for attempt in range(max_retries)` loop of `retry_request`:
`attempts i` is the outcome of the request on loop index `i`, `fuel` is the
number of iterations left.  Returns the returned response (or `none` when the
loop exhausts), the list of backoff sleeps `(attempt + 1) * 10` performed, and
the number of attempts made. -/
def retryAux (attempts : Nat → AttemptOutcome) : Nat → Nat →
    Option Response × List Nat × Nat
  | 0, _ => (none, [], 0)
  | fuel + 1, i =>
    match attempts i with
    | .raise =>
      let r := retryAux attempts fuel (i + 1)
      (r.1, ((i + 1) * 10) :: r.2.1, r.2.2 + 1)
    | .resp response =>
      if isTransientStatus response.status_code then
        let r := retryAux attempts fuel (i + 1)
        (r.1, ((i + 1) * 10) :: r.2.1, r.2.2 + 1)
      else (some response, [], 1)

/-- Embedding of `retry_request` with its default `max_retries = 3` exposed as
a parameter. -/
def retry_request (attempts : Nat → AttemptOutcome) (max_retries : Nat) :
    Option Response × List Nat × Nat :=
  retryAux attempts max_retries 0

/-- Embedding of `get_login_tokens`: fetch the login page through
`retry_request`; on `None` or a non-200 response (including falsy responses,
`status_code ≥ 400`) return `None`, otherwise extract tokens from the page —
token extraction is HTML parsing by an external library, abstracted as the
function `tokensOf`. -/
def get_login_tokens (attempts : Nat → AttemptOutcome)
    (tokensOf : Response → List (String × String)) :
    Option (List (String × String)) :=
  match (retry_request attempts 3).1 with
  | none => none
  | some response =>
    if 400 ≤ response.status_code ∨ response.status_code ≠ 200 then none
    else some (tokensOf response)

/-- Embedding of `login`: post the form through `retry_request`; `None` or a
falsy response means failure, a 200 response fails only when it is the login
page reporting bad credentials, and any other status fails. -/
def login (attempts : Nat → AttemptOutcome) : Bool :=
  match (retry_request attempts 3).1 with
  | none => false
  | some response =>
    if 400 ≤ response.status_code then false
    else if response.status_code == 200 then
      if response.urlHasLogin && response.textHasBadCred then false
      else true
    else false

/-- Embedding of `get_transcripts`: fetch the transcripts page through
`retry_request`; `None` or a non-200 (or falsy) response, or a redirect back
to the login page, yields `None`, otherwise the page text. -/
def get_transcripts (attempts : Nat → AttemptOutcome) : Option Nat :=
  match (retry_request attempts 3).1 with
  | none => none
  | some response =>
    if 400 ≤ response.status_code ∨ response.status_code ≠ 200 then none
    else if response.urlHasLogin then none
    else some response.body

/-! Helper lemmas. -/

lemma length_toBytesBEfix (len n : Nat) : (toBytesBEfix len n).length = len := by
  induction len generalizing n with
  | zero => rfl
  | succ k ih => simp [toBytesBEfix, ih]

lemma sha256_length (msg : List Nat) : (sha256 msg).length = 32 := by
  simp [sha256, length_toBytesBEfix]

lemma foldl_bytes_lt (bs : List Nat) (acc : Nat) (h : ValidBytes bs) :
    bs.foldl (fun a b => a * 256 + b) acc < (acc + 1) * 256 ^ bs.length := by
  induction bs generalizing acc with
  | nil => simp
  | cons b l ih =>
    have hb : b < 256 := h b (List.mem_cons_self b l)
    have hl : ValidBytes l := fun x hx => h x (List.mem_cons_of_mem b hx)
    have hrec := ih (acc * 256 + b) hl
    have hmul : (acc * 256 + b + 1) * 256 ^ l.length ≤
        (acc + 1) * 256 ^ (b :: l).length := by
      have h1 : acc * 256 + b + 1 ≤ (acc + 1) * 256 := by nlinarith
      have h2 : (acc + 1) * 256 * 256 ^ l.length = (acc + 1) * 256 ^ (b :: l).length := by
        rw [List.length_cons, pow_succ]
        ring
      calc (acc * 256 + b + 1) * 256 ^ l.length
          ≤ (acc + 1) * 256 * 256 ^ l.length := Nat.mul_le_mul_right _ h1
        _ = (acc + 1) * 256 ^ (b :: l).length := h2
    exact lt_of_lt_of_le hrec hmul

lemma fromBytesBE_lt (bs : List Nat) (h : ValidBytes bs) :
    fromBytesBE bs < 256 ^ bs.length := by
  simpa [fromBytesBE] using foldl_bytes_lt bs 0 h

lemma gA_lt (p g r : Nat) (hp : 2 ≤ p) : gA p g r < p := by
  unfold gA
  exact Nat.mod_lt _ (by omega)

/-- When the first config fetch returns a well-formed config (a valid byte
string for `p` with value at least 2), the negotiation succeeds with the
SHA-256 of the public value encoded at the width of `p`'s byte string, after
exactly one config fetch. -/
lemma ga_hash_ok (o : Oracle) (pb : List Nat) (g : Nat)
    (hcfg : o.dhConfig1 = .ok (.config pb g))
    (hp : 2 ≤ fromBytesBE pb) (hv : ValidBytes pb) :
    get_g_a_hash o =
      .ok (sha256 (toBytesBEfix pb.length (gA (fromBytesBE pb) g o.randomBytes)),
        [.getDhConfig]) := by
  have hple : ¬ fromBytesBE pb ≤ 1 := by omega
  have hga : gA (fromBytesBE pb) g o.randomBytes < 256 ^ pb.length :=
    lt_of_lt_of_le (gA_lt _ _ _ hp) (le_of_lt (fromBytesBE_lt pb hv))
  simp [get_g_a_hash, hcfg, gaFinish, hple, toBytesBE, hga]

lemma gaFinish_error_evs (r : Nat) (cfg : DhResp) (evs0 : List Event)
    (c : Bool) (evs : List Event) (h : gaFinish r cfg evs0 = .error (c, evs)) :
    evs = evs0 := by
  unfold gaFinish at h
  rcases cfg with ⟨pb, g⟩ | _
  · by_cases hp : fromBytesBE pb ≤ 1
    · simp [hp] at h
      exact h.2.symm
    · simp [hp] at h
      rcases htb : toBytesBE pb.length (gA (fromBytesBE pb) g r) with _ | gab
      · simp [htb] at h
        exact h.2.symm
      · simp [htb] at h
  · simp at h
    exact h.2.symm

lemma gaFinish_ok_evs (r : Nat) (cfg : DhResp) (evs0 : List Event)
    (hsh : List Nat) (evs : List Event) (h : gaFinish r cfg evs0 = .ok (hsh, evs)) :
    evs = evs0 := by
  unfold gaFinish at h
  rcases cfg with ⟨pb, g⟩ | _
  · by_cases hp : fromBytesBE pb ≤ 1
    · simp [hp] at h
    · simp [hp] at h
      rcases htb : toBytesBE pb.length (gA (fromBytesBE pb) g r) with _ | gab
      · simp [htb] at h
      · simp [htb] at h
        exact h.2.symm
  · simp at h

/-- Whatever the fetch outcome, the events emitted inside `get_g_a_hash` on
the error path are one or two config fetches. -/
lemma ga_error_evs (o : Oracle) (c : Bool) (evs : List Event)
    (h : get_g_a_hash o = .error (c, evs)) :
    evs = [.getDhConfig] ∨ evs = [.getDhConfig, .getDhConfig] := by
  unfold get_g_a_hash at h
  rcases h1 : o.dhConfig1 with cfg1 | c1
  · rcases cfg1 with ⟨pb, g⟩ | _
    · rw [h1] at h
      exact Or.inl (gaFinish_error_evs _ _ _ _ _ h)
    · rw [h1] at h
      rcases h2 : o.dhConfig2 with cfg2 | c2
      · rw [h2] at h
        exact Or.inr (gaFinish_error_evs _ _ _ _ _ h)
      · rw [h2] at h
        simp at h
        exact Or.inr h.2.symm
  · rw [h1] at h
    simp at h
    exact Or.inl h.2.symm

/-- Whatever the fetch outcome, the events emitted inside `get_g_a_hash` on
the success path are one or two config fetches. -/
lemma ga_ok_evs (o : Oracle) (hsh : List Nat) (evs : List Event)
    (h : get_g_a_hash o = .ok (hsh, evs)) :
    evs = [.getDhConfig] ∨ evs = [.getDhConfig, .getDhConfig] := by
  unfold get_g_a_hash at h
  rcases h1 : o.dhConfig1 with cfg1 | c1
  · rcases cfg1 with ⟨pb, g⟩ | _
    · rw [h1] at h
      exact Or.inl (gaFinish_ok_evs _ _ _ _ _ h)
    · rw [h1] at h
      rcases h2 : o.dhConfig2 with cfg2 | c2
      · rw [h2] at h
        exact Or.inr (gaFinish_ok_evs _ _ _ _ _ h)
      · rw [h2] at h
        simp at h
  · rw [h1] at h
    simp at h

lemma gaFinish_error_flag (r : Nat) (cfg : DhResp) (evs0 : List Event)
    (c : Bool) (evs : List Event) (h : gaFinish r cfg evs0 = .error (c, evs)) :
    c = false := by
  unfold gaFinish at h
  rcases cfg with ⟨pb, g⟩ | _
  · by_cases hp : fromBytesBE pb ≤ 1
    · simp [hp] at h
      exact h.1
    · simp [hp] at h
      rcases htb : toBytesBE pb.length (gA (fromBytesBE pb) g r) with _ | gab
      · simp [htb] at h
        exact h.1
      · simp [htb] at h
  · simp at h
    exact h.1

/-- An error escaping `get_g_a_hash` is `BaseException`-style only when one of
the two config fetches raised such an error; every error the function raises
itself is an ordinary exception. -/
lemma ga_error_flag (o : Oracle) (c : Bool) (evs : List Event)
    (h : get_g_a_hash o = .error (c, evs))
    (h1 : o.dhConfig1 ≠ .err true) (h2 : o.dhConfig2 ≠ .err true) : c = false := by
  unfold get_g_a_hash at h
  rcases hd1 : o.dhConfig1 with cfg1 | c1
  · rcases cfg1 with ⟨pb, g⟩ | _
    · rw [hd1] at h
      exact gaFinish_error_flag _ _ _ _ _ h
    · rw [hd1] at h
      rcases hd2 : o.dhConfig2 with cfg2 | c2
      · rw [hd2] at h
        exact gaFinish_error_flag _ _ _ _ _ h
      · rw [hd2] at h
        simp at h
        rcases c2 with _ | _
        · exact h.1.symm
        · exact absurd hd2 h2
  · rw [hd1] at h
    simp at h
    rcases c1 with _ | _
    · exact h.1.symm
    · exact absurd hd1 h1

/-! Concrete environments used to evaluate the model on explicit inputs.
`[0x87]` encodes `p = 135` (odd, high bit set); the random value `0` gives
`a = 1` and `g_a = 2`. -/

/-- An environment in which every step succeeds. -/
def okOracle : Oracle :=
  { startRes := .ok (), getMeRes := .ok (), getEntityRes := .ok 7
    dhConfig1 := .ok (.config [0x87] 2), dhConfig2 := .ok .notModified
    randomBytes := 0, requestCallRes := .ok ⟨11, 22⟩
    sleepRes := .ok (), discardRes := .ok () }

/-- An environment in which the ring-wait is interrupted by a cancellation
signal (`asyncio.CancelledError` at the `asyncio.sleep` suspension point). -/
def cancelSleepOracle : Oracle :=
  { okOracle with sleepRes := .err true }

/-- Every awaited step either succeeds or raises an ordinary `Exception`
(never a `BaseException`-style error such as cancellation). -/
def OrdinaryErrors (o : Oracle) : Prop :=
  o.startRes ≠ .err true ∧ o.getMeRes ≠ .err true ∧ o.getEntityRes ≠ .err true ∧
  o.dhConfig1 ≠ .err true ∧ o.dhConfig2 ≠ .err true ∧
  o.requestCallRes ≠ .err true ∧ o.sleepRes ≠ .err true ∧ o.discardRes ≠ .err true

/-- C9: on every execution path of `ring_phone` — success, failure after a
caught error, or an escaping error — the last external action is the client
disconnect performed by the `finally` clause. -/
theorem ring_phone_always_disconnects (o : Oracle) (t : String) (d : Nat) :
    ((ring_phone o t d).2).getLast? = some Event.disconnect := by
  simp [ring_phone]

/-- C5 counterexample: on a fully successful run, the directory lookup
(`get_entity`, trace position 2) happens strictly before the DH parameter
fetch (`GetDhConfigRequest`, trace position 3), contradicting the claim that
negotiation precedes identity resolution. -/
theorem negotiation_not_before_resolution_cex :
    (ring_phone okOracle "alice" 10).2.findIdx isGetEntity = 2 ∧
    (ring_phone okOracle "alice" 10).2.findIdx isGetDhConfig = 3 := by
  constructor <;> rfl

/-- C5 amended: in every execution, identity resolution happens strictly
before the key-exchange negotiation: no DH config fetch ever occurs before
the `get_entity` invocation (in particular, if resolution is never performed
or fails, the trace up to that point has no fetch at all). -/
theorem resolution_before_negotiation (o : Oracle) (t : String) (d : Nat) :
    (((ring_phone o t d).2).takeWhile (fun e => !isGetEntity e)).countP
      isGetDhConfig = 0 := by
  unfold ring_phone ringBody
  rcases hs : o.startRes with u | c
  · rcases hm : o.getMeRes with u2 | c
    · rcases he : o.getEntityRes with u3 | c
      · rcases hga : get_g_a_hash o with ⟨c, evs⟩ | ⟨gh, evs⟩
        · simp [hga, List.takeWhile, isGetEntity, isGetDhConfig, List.countP_cons]
        · rcases hrc : o.requestCallRes with call | c <;>
            rcases hsl : o.sleepRes with u4 | c2 <;>
            rcases hdc : o.discardRes with u5 | c3 <;>
            simp [hga, hrc, hsl, hdc, List.takeWhile, isGetEntity, isGetDhConfig,
              List.countP_cons]
      · simp [he, List.takeWhile, isGetEntity, isGetDhConfig, List.countP_cons]
    · simp [hm, List.takeWhile, isGetEntity, isGetDhConfig, List.countP_cons]
  · simp [hs, List.takeWhile, isGetEntity, isGetDhConfig, List.countP_cons]

/-- C4 counterexample: a cancellation arriving at the ring-wait suspension
point escapes `ring_phone` (Python's `except Exception` does not catch
`BaseException`-style errors), so the entry point does raise past its
boundary instead of returning an outcome. -/
theorem ring_phone_cancellation_raises_cex :
    (ring_phone cancelSleepOracle "alice" 10).1 = .raised := by
  rfl

/-- C4 amended: as long as every internal step raises only ordinary
`Exception`s, `ring_phone` never raises past its boundary and returns a
boolean success/failure outcome (the reason is only printed, not returned);
a `BaseException`-style error such as cancellation does propagate. -/
theorem ring_phone_no_ordinary_raise (o : Oracle) (t : String) (d : Nat)
    (h : OrdinaryErrors o) : ∃ b, (ring_phone o t d).1 = .returned b := by
  obtain ⟨h1, h2, h3, h4, h5, h6, h7, h8⟩ := h
  unfold ring_phone ringBody
  rcases hs : o.startRes with u | c
  · rcases hm : o.getMeRes with u2 | c
    · rcases he : o.getEntityRes with u3 | c
      · rcases hga : get_g_a_hash o with ⟨c, evs⟩ | ⟨gh, evs⟩
        · have hc : c = false := ga_error_flag o c evs hga h4 h5
          subst hc
          exact ⟨false, by simp [hga, onErr]⟩
        · rcases hrc : o.requestCallRes with call | c
          · rcases hsl : o.sleepRes with u4 | c2
            · rcases hdc : o.discardRes with u5 | c3
              · exact ⟨true, by simp [hga, hrc, hsl, hdc]⟩
              · have hc : c3 = false := by
                  cases c3
                  · rfl
                  · exact absurd hdc h8
                subst hc
                exact ⟨false, by simp [hga, hrc, hsl, hdc, onErr]⟩
            · have hc : c2 = false := by
                cases c2
                · rfl
                · exact absurd hsl h7
              subst hc
              exact ⟨false, by simp [hga, hrc, hsl, onErr]⟩
          · have hc : c = false := by
              cases c
              · rfl
              · exact absurd hrc h6
            subst hc
            exact ⟨false, by simp [hga, hrc, onErr]⟩
      · have hc : c = false := by
          cases c
          · rfl
          · exact absurd he h3
        subst hc
        exact ⟨false, by simp [he, onErr]⟩
    · have hc : c = false := by
        cases c
        · rfl
        · exact absurd hm h2
      subst hc
      exact ⟨false, by simp [hm, onErr]⟩
  · have hc : c = false := by
      cases c
      · rfl
      · exact absurd hs h1
    subst hc
    exact ⟨false, by simp [hs, onErr]⟩

/-- C4 witness: in the all-success environment the amended theorem applies
and `ring_phone` returns a boolean outcome. -/
theorem ring_phone_no_ordinary_raise_witness :
    ∃ b, (ring_phone okOracle "alice" 10).1 = .returned b :=
  ring_phone_no_ordinary_raise okOracle "alice" 10 (by unfold OrdinaryErrors okOracle; decide)

/-- An environment in which everything succeeds except the discard RPC, which
raises an ordinary exception. -/
def discardFailOracle : Oracle :=
  { okOracle with discardRes := .err false }

/-- C1 counterexample: when the discard RPC raises, `except Exception`
catches the error and `ring_phone` returns `False` — the discard was issued
against the returned handle, yet the overall outcome is failure, not the
claimed `Completed` success. -/
theorem ring_discard_error_fails_outcome_cex :
    (ring_phone discardFailOracle "alice" 10).1 = .returned false ∧
    Event.discardCall 11 22 0 true 0 ∈
      (ring_phone discardFailOracle "alice" 10).2 := by
  constructor
  · rfl
  · decide

/-- C1 amended: once the call request has returned a handle and the ring-wait
completes without error, a discard is issued against exactly the returned
`id`/`access_hash` with `duration = 0` and the hangup-by-caller reason; the
overall outcome is success exactly when that discard RPC does not raise (a
raising discard yields a failure outcome, not success). -/
theorem ring_discard_uses_returned_handle (o : Oracle) (t : String) (d u : Nat)
    (gh : List Nat) (evs : List Event) (call : PhoneCallHandle)
    (hs : o.startRes = .ok ()) (hm : o.getMeRes = .ok ())
    (he : o.getEntityRes = .ok u) (hga : get_g_a_hash o = .ok (gh, evs))
    (hrc : o.requestCallRes = .ok call) (hsl : o.sleepRes = .ok ()) :
    Event.discardCall call.id call.access_hash 0 true 0 ∈ (ring_phone o t d).2 ∧
    ((ring_phone o t d).1 = .returned true ↔ o.discardRes = .ok ()) := by
  unfold ring_phone ringBody
  rcases hdc : o.discardRes with u5 | c
  · simp [hs, hm, he, hga, hrc, hsl, hdc]
  · cases c <;> simp [hs, hm, he, hga, hrc, hsl, hdc, onErr]

/-- C1 witness: in the all-success environment the discard is issued against
the returned handle and the outcome is success. -/
theorem ring_discard_uses_returned_handle_witness :
    Event.discardCall 11 22 0 true 0 ∈ (ring_phone okOracle "alice" 10).2 ∧
    ((ring_phone okOracle "alice" 10).1 = .returned true ↔
      okOracle.discardRes = .ok ()) :=
  ring_discard_uses_returned_handle okOracle "alice" 10 7 _ _ ⟨11, 22⟩ rfl rfl rfl
    (ga_hash_ok okOracle [0x87] 2 rfl (by decide) (by unfold ValidBytes; decide))
    rfl rfl

/-- C8 counterexample: when the ring-wait is cancelled, no discard is ever
issued (the claim said the discard would be issued immediately); the
cancellation instead escapes `ring_phone`. -/
theorem cancelled_wait_no_discard_cex :
    (ring_phone cancelSleepOracle "alice" 10).2.countP isDiscardCall = 0 ∧
    (ring_phone cancelSleepOracle "alice" 10).1 = .raised := by
  constructor
  · decide
  · rfl

/-- C8 amended: if the ring-wait suspension raises (in particular when it is
cancelled before the configured duration elapses), the controller never
issues the discard for the held call handle: a cancellation propagates past
`ring_phone` and an ordinary exception yields a failure return, in both
cases with no `DiscardCall` in the trace. -/
theorem cancelled_wait_skips_discard (o : Oracle) (t : String) (d u : Nat)
    (gh : List Nat) (evs : List Event) (call : PhoneCallHandle) (c : Bool)
    (hs : o.startRes = .ok ()) (hm : o.getMeRes = .ok ())
    (he : o.getEntityRes = .ok u) (hga : get_g_a_hash o = .ok (gh, evs))
    (hrc : o.requestCallRes = .ok call) (hsl : o.sleepRes = .err c) :
    (ring_phone o t d).2.countP isDiscardCall = 0 ∧
    (ring_phone o t d).1 = (if c then .raised else .returned false) := by
  rcases ga_ok_evs o gh evs hga with hevs | hevs <;> subst hevs <;> constructor <;>
    simp [ring_phone, ringBody, hs, hm, he, hga, hrc, hsl, onErr,
      List.countP_append, List.countP_cons, isDiscardCall]

/-- C8 witness: with a cancellation at the ring-wait of the otherwise
successful environment, no discard appears in the trace and the cancellation
escapes. -/
theorem cancelled_wait_skips_discard_witness :
    (ring_phone cancelSleepOracle "alice" 10).2.countP isDiscardCall = 0 ∧
    (ring_phone cancelSleepOracle "alice" 10).1 =
      (if true then .raised else .returned false) :=
  cancelled_wait_skips_discard cancelSleepOracle "alice" 10 7 _ _ ⟨11, 22⟩ true
    rfl rfl rfl
    (ga_hash_ok cancelSleepOracle [0x87] 2 rfl (by decide)
      (by unfold ValidBytes; decide))
    rfl rfl

/-- An environment in which the platform supplies the degenerate generator
`g = 1` together with a well-formed modulus byte string. -/
def degenerateGOracle : Oracle :=
  { okOracle with dhConfig1 := .ok (.config [0x87] 1) }

/-- C3 counterexample: the code performs no validity check on `p`/`g`: with
the degenerate generator `g = 1` the negotiation succeeds, the call request
is issued (exactly one `RequestCall` in the trace) and the ring attempt
reports success, contradicting the claimed `NegotiationFailed` fail-fast. -/
theorem degenerate_g_accepted_cex :
    (ring_phone degenerateGOracle "alice" 10).2.countP isRequestCall = 1 ∧
    (ring_phone degenerateGOracle "alice" 10).1 = .returned true := by
  constructor
  · decide
  · rfl

/-- C3 amended: the negotiator retries the parameter fetch exactly once when
the first fetch reports not-modified; if both fetches report not-modified
the ring attempt fails (the `AttributeError` on the config is caught) after
exactly two fetch RPCs and without ever issuing a `RequestCall`; if the
first fetch raises an ordinary error there is no retry — the attempt fails
after exactly one fetch RPC, again with no `RequestCall`.  No validity check
on `p`/`g` is performed (see the counterexample). -/
theorem negotiation_retry_and_failfast (o : Oracle) (t : String) (d u : Nat)
    (hs : o.startRes = .ok ()) (hm : o.getMeRes = .ok ())
    (he : o.getEntityRes = .ok u) :
    (o.dhConfig1 = .ok .notModified → o.dhConfig2 = .ok .notModified →
      (ring_phone o t d).1 = .returned false ∧
      (ring_phone o t d).2.countP isRequestCall = 0 ∧
      (ring_phone o t d).2.countP isGetDhConfig = 2) ∧
    (o.dhConfig1 = .err false →
      (ring_phone o t d).1 = .returned false ∧
      (ring_phone o t d).2.countP isRequestCall = 0 ∧
      (ring_phone o t d).2.countP isGetDhConfig = 1) := by
  constructor
  · intro h1 h2
    have hga : get_g_a_hash o = .error (false, [.getDhConfig, .getDhConfig]) := by
      simp [get_g_a_hash, h1, h2, gaFinish]
    refine ⟨?_, ?_, ?_⟩ <;>
      simp [ring_phone, ringBody, hs, hm, he, hga, onErr, List.countP_append,
        List.countP_cons, isRequestCall, isGetDhConfig]
  · intro h1
    have hga : get_g_a_hash o = .error (false, [.getDhConfig]) := by
      simp [get_g_a_hash, h1]
    refine ⟨?_, ?_, ?_⟩ <;>
      simp [ring_phone, ringBody, hs, hm, he, hga, onErr, List.countP_append,
        List.countP_cons, isRequestCall, isGetDhConfig]

/-- An environment in which both parameter fetches report not-modified. -/
def notModifiedTwiceOracle : Oracle :=
  { okOracle with dhConfig1 := .ok .notModified, dhConfig2 := .ok .notModified }

/-- C3 witness: with both fetches reporting not-modified, the attempt fails
after two fetch RPCs without a `RequestCall`. -/
theorem negotiation_retry_and_failfast_witness :
    (ring_phone notModifiedTwiceOracle "alice" 10).1 = .returned false ∧
    (ring_phone notModifiedTwiceOracle "alice" 10).2.countP isRequestCall = 0 ∧
    (ring_phone notModifiedTwiceOracle "alice" 10).2.countP isGetDhConfig = 2 :=
  (negotiation_retry_and_failfast notModifiedTwiceOracle "alice" 10 7
    rfl rfl rfl).1 rfl rfl

/-! Retry-loop step lemmas. -/

lemma retryAux_transient_step (att : Nat → AttemptOutcome) (fuel i : Nat)
    (h : isTransient (att i) = true) :
    retryAux att (fuel + 1) i =
      ((retryAux att fuel (i + 1)).1,
       ((i + 1) * 10) :: (retryAux att fuel (i + 1)).2.1,
       (retryAux att fuel (i + 1)).2.2 + 1) := by
  rcases ha : att i with _ | r
  · simp [retryAux, ha]
  · rw [ha] at h
    simp only [isTransient] at h
    simp [retryAux, ha, h]

lemma retryAux_success_step (att : Nat → AttemptOutcome) (fuel i : Nat)
    (r : Response) (ha : att i = .resp r) (h : isTransient (att i) = false) :
    retryAux att (fuel + 1) i = (some r, [], 1) := by
  rw [ha] at h
  simp only [isTransient] at h
  simp [retryAux, ha, h]

/-- During a ring attempt the call-request RPC is consulted at most once:
`ring_phone` has no retry loop around its RPCs. -/
lemma ringBody_requestCall_le_one (o : Oracle) (t : String) (d : Nat) :
    (ringBody o t d).2.countP isRequestCall ≤ 1 := by
  unfold ringBody
  rcases hs : o.startRes with u | c
  · rcases hm : o.getMeRes with u2 | c
    · rcases he : o.getEntityRes with u3 | c
      · rcases hga : get_g_a_hash o with ⟨c, evs⟩ | ⟨gh, evs⟩
        · rcases ga_error_evs o c evs hga with hevs | hevs <;> subst hevs <;>
            simp [hga, List.countP_append, List.countP_cons, isRequestCall]
        · rcases ga_ok_evs o gh evs hga with hevs | hevs <;> subst hevs <;>
            rcases hrc : o.requestCallRes with call | c1 <;>
            rcases hsl : o.sleepRes with u4 | c2 <;>
            rcases hdc : o.discardRes with u5 | c3 <;>
            simp [hga, hrc, hsl, hdc, List.countP_append, List.countP_cons,
              isRequestCall]
      · simp [he, List.countP_append, List.countP_cons, isRequestCall]
    · simp [hm, List.countP_append, List.countP_cons, isRequestCall]
  · simp [hs, List.countP_append, List.countP_cons, isRequestCall]

/-- An environment in which the call-request RPC raises a transport-level
(ordinary, transient-style) error. -/
def requestCallFailOracle : Oracle :=
  { okOracle with requestCallRes := .err false }

/-- C2 counterexample: the Telegram RPCs in `ring_phone` do not go through
any retry wrapper: when the call request fails with a transport-level error,
exactly one `RequestCall` invocation is made and the whole attempt fails,
instead of the claimed 3 attempts with backoff and eventual success. -/
theorem ring_rpc_not_retried_cex :
    (ring_phone requestCallFailOracle "alice" 10).2.countP isRequestCall = 1 ∧
    (ring_phone requestCallFailOracle "alice" 10).1 = .returned false := by
  constructor
  · decide
  · rfl

/-- C2 amended: the bounded-retry wrapper exists only for the HTTP requests
of the transcript checker (`retry_request`): there, two transient failures
followed by a non-transient response on the third attempt give exactly 3
attempts, backoff sleeps of 10s then 20s, and the third response as the
result.  The Telegram RPC invocations of a ring attempt are issued directly:
the call request is consulted at most once per attempt. -/
theorem retry_request_bounded_retry :
    (∀ (att : Nat → AttemptOutcome) (r : Response),
      isTransient (att 0) = true → isTransient (att 1) = true →
      att 2 = .resp r → isTransient (att 2) = false →
      retry_request att 3 = (some r, [10, 20], 3)) ∧
    (∀ (o : Oracle) (t : String) (d : Nat),
      (ring_phone o t d).2.countP isRequestCall ≤ 1) := by
  constructor
  · intro att r h0 h1 ha2 h2
    unfold retry_request
    rw [retryAux_transient_step att 2 0 h0,
        retryAux_transient_step att 1 1 h1,
        retryAux_success_step att 0 2 r ha2 h2]
  · intro o t d
    have hb := ringBody_requestCall_le_one o t d
    have hz : List.countP isRequestCall [Event.disconnect] = 0 := by decide
    simp only [ring_phone, List.countP_append, hz]
    simpa using hb

/-- A transport behavior that fails twice and then returns a 200 response. -/
def twoFailThenOk : Nat → AttemptOutcome := fun i =>
  if i < 2 then .raise else .resp ⟨200, false, false, 0⟩

/-- C2 witness: on the fail-fail-succeed transport, `retry_request` makes 3
attempts with sleeps 10s and 20s and returns the third response. -/
theorem retry_request_bounded_retry_witness :
    retry_request twoFailThenOk 3 = (some ⟨200, false, false, 0⟩, [10, 20], 3) :=
  retry_request_bounded_retry.1 twoFailThenOk ⟨200, false, false, 0⟩
    (by decide) (by decide) (by decide) (by decide)

/-- C6 counterexample: with the prime-shaped but composite modulus `p = 135`
(byte string `[0x87]`: odd, high bit set), generator `g = 15 ∈ [2, p-2]` and
admissible randomness `r = 2 < 256 ^ 256`, the secret is `a = 3` and the
public value is `g_a = 15 ^ 3 mod 135 = 0`, refuting `0 < g_a`. -/
theorem gA_zero_for_composite_p_cex :
    fromBytesBE [0x87] = 135 ∧ 135 % 2 = 1 ∧ 2 ^ (8 * 1 - 1) ≤ 135 ∧
    2 ≤ 15 ∧ 15 ≤ 135 - 2 ∧ (2 : Nat) < 256 ^ 256 ∧
    secretA 135 2 = 3 ∧ gA 135 15 2 = 0 :=
  ⟨rfl, rfl, by decide, by decide, by decide, by decide, rfl, rfl⟩

/-- C6 amended: when the prime-shaped modulus is additionally actually prime,
the claim holds: for `g ∈ [2, p-2]` and any 256-byte randomness, the
ephemeral secret satisfies `1 ≤ a ≤ p - 1` and the public value satisfies
`0 < g_a < p`. -/
theorem ephemeral_secret_bounds (pb : List Nat) (g r : Nat)
    (_hv : ValidBytes pb) (hprime : (fromBytesBE pb).Prime)
    (_hodd : fromBytesBE pb % 2 = 1)
    (_hbit : 2 ^ (8 * pb.length - 1) ≤ fromBytesBE pb)
    (hg2 : 2 ≤ g) (hgp : g ≤ fromBytesBE pb - 2) (_hr : r < 256 ^ 256) :
    1 ≤ secretA (fromBytesBE pb) r ∧
    secretA (fromBytesBE pb) r ≤ fromBytesBE pb - 1 ∧
    0 < gA (fromBytesBE pb) g r ∧ gA (fromBytesBE pb) g r < fromBytesBE pb := by
  set p := fromBytesBE pb with hp
  have hp2 : 2 ≤ p := hprime.two_le
  refine ⟨?_, ?_, ?_, ?_⟩
  · simp only [secretA]
    omega
  · have hm : r % (p - 1) < p - 1 := Nat.mod_lt r (by omega)
    simp only [secretA]
    omega
  · by_contra hle
    have hz : gA p g r = 0 := by omega
    have hmod : g ^ secretA p r % p = 0 := by
      simpa [gA] using hz
    have hdvd : p ∣ g ^ secretA p r := Nat.dvd_of_mod_eq_zero hmod
    have hpg : p ∣ g := hprime.dvd_of_dvd_pow hdvd
    have hlep : p ≤ g := Nat.le_of_dvd (by omega) hpg
    omega
  · exact gA_lt p g r hp2

/-- C6 witness: the amended statement at the one-byte prime `p = 131`
(`[0x83]`: odd, high bit set), `g = 2`, randomness `0`. -/
theorem ephemeral_secret_bounds_witness :
    1 ≤ secretA (fromBytesBE [0x83]) 0 ∧
    secretA (fromBytesBE [0x83]) 0 ≤ fromBytesBE [0x83] - 1 ∧
    0 < gA (fromBytesBE [0x83]) 2 0 ∧
    gA (fromBytesBE [0x83]) 2 0 < fromBytesBE [0x83] :=
  ephemeral_secret_bounds [0x83] 2 0 (by unfold ValidBytes; decide)
    (by decide) (by decide) (by decide) (by decide) (by decide) (by decide)

/-- C7: on a well-formed first config response, the commitment returned by
the negotiator is exactly the SHA-256 of the public value encoded big-endian
at the byte width of the platform-supplied `p` byte string; the encoding has
the length of `p`'s byte string, the digest is always 32 bytes, and the
commitment is a deterministic function of the config and the randomness. -/
theorem commitment_sha256_shape (o : Oracle) (pb : List Nat) (g : Nat)
    (hcfg : o.dhConfig1 = .ok (.config pb g)) (hp : 2 ≤ fromBytesBE pb)
    (hv : ValidBytes pb) :
    get_g_a_hash o =
      .ok (sha256 (toBytesBEfix pb.length (gA (fromBytesBE pb) g o.randomBytes)),
        [.getDhConfig]) ∧
    (toBytesBEfix pb.length (gA (fromBytesBE pb) g o.randomBytes)).length =
      pb.length ∧
    (sha256 (toBytesBEfix pb.length (gA (fromBytesBE pb) g o.randomBytes))).length
      = 32 ∧
    (∀ o' : Oracle, o'.dhConfig1 = .ok (.config pb g) →
      o'.randomBytes = o.randomBytes → get_g_a_hash o' = get_g_a_hash o) :=
  ⟨ga_hash_ok o pb g hcfg hp hv, length_toBytesBEfix _ _, sha256_length _,
   fun o' h1 h2 => by
     rw [ga_hash_ok o' pb g h1 hp hv, ga_hash_ok o pb g hcfg hp hv, h2]⟩

/-- C7 witness: the commitment shape at the concrete all-success
environment. -/
theorem commitment_sha256_shape_witness :
    get_g_a_hash okOracle =
      .ok (sha256 (toBytesBEfix 1 (gA (fromBytesBE [0x87]) 2 okOracle.randomBytes)),
        [.getDhConfig]) ∧
    (toBytesBEfix 1 (gA (fromBytesBE [0x87]) 2 okOracle.randomBytes)).length = 1 ∧
    (sha256 (toBytesBEfix 1 (gA (fromBytesBE [0x87]) 2 okOracle.randomBytes))).length
      = 32 ∧
    (∀ o' : Oracle, o'.dhConfig1 = .ok (.config [0x87] 2) →
      o'.randomBytes = okOracle.randomBytes →
      get_g_a_hash o' = get_g_a_hash okOracle) :=
  commitment_sha256_shape okOracle [0x87] 2 rfl (by decide)
    (by unfold ValidBytes; decide)

lemma retryAux_none_of_transient (att : Nat → AttemptOutcome) :
    ∀ fuel i, (∀ j, j < fuel → isTransient (att (i + j)) = true) →
      (retryAux att fuel i).1 = none := by
  intro fuel
  induction fuel with
  | zero =>
    intro i h
    simp [retryAux]
  | succ n ih =>
    intro i h
    rw [retryAux_transient_step att n i (by simpa using h 0 (Nat.succ_pos n))]
    exact ih (i + 1) (fun j hj => by
      have hh := h (j + 1) (by omega)
      have harith : i + (j + 1) = i + 1 + j := by omega
      rwa [harith] at hh)

/-- C10: when every one of the `max_retries` attempts raises or returns a
transient status (500, 502 or 503), `retry_request` exhausts the loop and
returns `None` instead of raising or returning the last response; at the
default `max_retries = 3` used by every caller it sleeps 10s, 20s, 30s, and
each caller maps that `None` to its own failure value (`get_login_tokens`
and `get_transcripts` return `None`, `login` returns `False`). -/
theorem retry_exhaustion_returns_none (att : Nat → AttemptOutcome)
    (max_retries : Nat)
    (h : ∀ i, i < max_retries → isTransient (att i) = true) :
    (retry_request att max_retries).1 = none ∧
    (max_retries = 3 →
      retry_request att 3 = (none, [10, 20, 30], 3) ∧
      (∀ tokensOf, get_login_tokens att tokensOf = none) ∧
      login att = false ∧ get_transcripts att = none) := by
  have hnone : (retry_request att max_retries).1 = none := by
    unfold retry_request
    exact retryAux_none_of_transient att max_retries 0
      (fun j hj => by simpa using h j hj)
  refine ⟨hnone, ?_⟩
  intro hm
  subst hm
  have hr : retry_request att 3 = (none, [10, 20, 30], 3) := by
    unfold retry_request
    rw [retryAux_transient_step att 2 0 (h 0 (by omega)),
        retryAux_transient_step att 1 1 (h 1 (by omega)),
        retryAux_transient_step att 0 2 (h 2 (by omega))]
    norm_num [retryAux]
  exact ⟨hr, fun tokensOf => by simp [get_login_tokens, hr],
    by simp [login, hr], by simp [get_transcripts, hr]⟩

/-- A transport behavior that raises on every attempt. -/
def alwaysRaise : Nat → AttemptOutcome := fun _ => .raise

/-- C10 witness: on the always-raising transport the wrapper returns `None`
after 3 attempts and sleeps 10s, 20s, 30s, and every caller fails. -/
theorem retry_exhaustion_returns_none_witness :
    (retry_request alwaysRaise 3).1 = none ∧
    ((3 : Nat) = 3 →
      retry_request alwaysRaise 3 = (none, [10, 20, 30], 3) ∧
      (∀ tokensOf, get_login_tokens alwaysRaise tokensOf = none) ∧
      login alwaysRaise = false ∧ get_transcripts alwaysRaise = none) :=
  retry_exhaustion_returns_none alwaysRaise 3 (by decide)

end PuaChecker
